import Mathlib

/-!
Verification of the RAG chunking / ingestion / retrieval pipeline of this
repository (RAG/ingest_documents.py and RAG/rag_example.py).

Texts are modelled as `List Char`; Python integers as `Nat`/`Int`; Python
floats (relevance scores) as `Rat`; fallible operations return `Option`.
Loops that the source runs with a mutable cursor are embedded as
fuel-indexed recursions so that every definition is executable.
-/

/-- The whitespace characters stripped by Python's `str.strip()`
(ASCII set: space, tab, newline, carriage return, vertical tab, form feed). -/
def isPyWhitespace (c : Char) : Bool :=
  c = ' ' || c = '\t' || c = '\n' || c = '\r' || c = '\x0b' || c = '\x0c'

/-- Python `s.strip()`: remove leading and trailing whitespace. -/
def pyStrip (s : List Char) : List Char :=
  ((s.dropWhile isPyWhitespace).reverse.dropWhile isPyWhitespace).reverse

/-- Python `s.rfind(sub)`: the largest index `i` such that `sub` occurs in `s`
starting at `i`, or `-1` when there is no occurrence. -/
def pyRfind (sub s : List Char) : Int :=
  match ((List.range (s.length + 1)).filter
      (fun i => sub.isPrefixOf (s.drop i))).getLast? with
  | some i => (i : Int)
  | none => -1

/-- Python slice `s[a:b]` for possibly negative `Int` indices: a negative
index counts from the end of the list, and both ends are clamped to
`[0, length]`. -/
def pySlice (s : List Char) (a b : Int) : List Char :=
  let n : Int := s.length
  let lo := (if a < 0 then max 0 (n + a) else min a n).toNat
  let hi := (if b < 0 then max 0 (n + b) else min b n).toNat
  (s.drop lo).take (hi - lo)

/-- Little-endian decimal digits of `n` as characters, with enough fuel. -/
def natDigitsAux : Nat → Nat → List Char
  | 0, _ => []
  | _ + 1, 0 => []
  | fuel + 1, n + 1 =>
      Char.ofNat (48 + (n + 1) % 10) :: natDigitsAux fuel ((n + 1) / 10)

/-- Python `str(n)` for a natural number `n`: its decimal representation. -/
def pyStrNat (n : Nat) : List Char :=
  if n = 0 then [ '0'] else (natDigitsAux n n).reverse

/-- Value of a little-endian decimal digit string (used to invert
`natDigitsAux`). -/
def unDigits : List Char → Nat
  | [] => 0
  | c :: t => (c.toNat - 48) + 10 * unDigits t

/-! ## The document chunker of `DocumentLoader._chunk_text`
(RAG/ingest_documents.py, lines 155-190). -/

/-- The boundary search of `DocumentLoader._chunk_text`: inside the window
`chunk` (only consulted when the window does not reach the end of the text),
prefer a paragraph break, then a sentence break, then a newline, each only
when it falls past the midpoint `chunk_size // 2`; otherwise cut at the hard
`chunk_size` limit.  Returns the number of characters kept. -/
def ingestBreakPoint (size : Nat) (chunk : List Char) : Nat :=
  let last_para := pyRfind [ '\n', '\n'] chunk
  let last_period := pyRfind [ '.', ' '] chunk
  let last_newline := pyRfind [ '\n'] chunk
  let half : Int := (size / 2 : Nat)
  if last_para > half then (last_para + 2).toNat
  else if last_period > half then (last_period + 2).toNat
  else if last_newline > half then (last_newline + 1).toNat
  else size

/-- The exclusive end of the window taken at cursor `start` by
`_chunk_text`: `start + chunk_size`, shortened by the boundary search when
the window does not reach the end of the text. -/
def ingestEnd (size : Nat) (text : List Char) (start : Nat) : Nat :=
  if start + size < text.length then
    start + ingestBreakPoint size ((text.drop start).take size)
  else start + size

/-- The cursor update of `_chunk_text`:
`start = max(start + 1, end - self.chunk_overlap)`. -/
def ingestNext (size ov : Nat) (text : List Char) (start : Nat) : Nat :=
  max (start + 1) (ingestEnd size text start - ov)

/-- The chunk emitted at cursor `start` by `_chunk_text`:
`text[start:end].strip()`. -/
def ingestChunk (size : Nat) (text : List Char) (start : Nat) : List Char :=
  pyStrip ((text.drop start).take (ingestEnd size text start - start))

/-- The `while start < len(text)` loop of `_chunk_text`, indexed by fuel.
Each iteration appends the stripped window when it is non-empty and advances
the cursor with `ingestNext`; `text.length` fuel always suffices because the
cursor strictly increases. -/
def chunkLoopF : Nat → Nat → Nat → List Char → Nat → List (List Char)
  | 0, _, _, _, _ => []
  | fuel + 1, size, ov, text, start =>
      if start < text.length then
        let c := ingestChunk size text start
        let rest := chunkLoopF fuel size ov text (ingestNext size ov text start)
        if c.isEmpty then rest else c :: rest
      else []

/-- `DocumentLoader._chunk_text(text)` with `chunk_size = size` and
`chunk_overlap = ov`. -/
def py_chunk_text (size ov : Nat) (text : List Char) : List (List Char) :=
  chunkLoopF text.length size ov text 0

/-- The `[start, end)` windows taken by the `_chunk_text` loop, in iteration
order (same cursor trajectory as `chunkLoopF`). -/
def ingestWindowsF : Nat → Nat → Nat → List Char → Nat → List (Nat × Nat)
  | 0, _, _, _, _ => []
  | fuel + 1, size, ov, text, start =>
      if start < text.length then
        (start, ingestEnd size text start) ::
          ingestWindowsF fuel size ov text (ingestNext size ov text start)
      else []

/-- The windows of a full run of `_chunk_text` starting at cursor `0`. -/
def ingestWindows (size ov : Nat) (text : List Char) : List (Nat × Nat) :=
  ingestWindowsF text.length size ov text 0

/-! ## The second chunker, `chunk_text` (RAG/rag_example.py, lines 409-431).
Its cursor is an `Int` because `start = end - overlap` can go negative in the
source; slices follow Python semantics via `pySlice`. -/

/-- One iteration of `chunk_text`: the window `text[start:start+chunk_size]`,
optionally shortened at `max(rfind('.'), rfind('\n')) + 1` when that break
point passes the midpoint, and the un-clamped cursor update
`start = end - overlap`.  Returns the (unstripped) chunk and the new cursor. -/
def ragStep (size ov : Nat) (text : List Char) (start : Int) : List Char × Int :=
  let e : Int := start + size
  let chunk := pySlice text start e
  if e < (text.length : Int) then
    let last_period := pyRfind [ '.'] chunk
    let last_newline := pyRfind [ '\n'] chunk
    let break_point := max last_period last_newline
    if break_point > ((size / 2 : Nat) : Int) then
      (pySlice text start (start + break_point + 1), start + break_point + 1 - ov)
    else (chunk, e - ov)
  else (chunk, e - ov)

/-- The `while start < len(text)` loop of `chunk_text`, indexed by fuel.
`none` means the fuel ran out before the loop finished (the source loop has
no progress guard, so this genuinely happens). -/
def ragLoop (size ov : Nat) (text : List Char) : Nat → Int → Option (List (List Char))
  | 0, _ => none
  | fuel + 1, start =>
      if start < (text.length : Int) then
        let st := ragStep size ov text start
        match ragLoop size ov text fuel st.2 with
        | some rest => some (pyStrip st.1 :: rest)
        | none => none
      else some []

/-- `chunk_text(text, chunk_size, overlap)` of rag_example.py: run the loop
(appending every stripped chunk) and filter out empty chunks at the end. -/
def rag_chunk_text (size ov : Nat) (text : List Char) (fuel : Nat) :
    Option (List (List Char)) :=
  (ragLoop size ov text fuel 0).map (List.filter (fun c => !c.isEmpty))

/-! ## The Document Loader (`ingest_documents.py`).
A file is modelled by what `_load_text` consults: its directory, name, stem,
suffix, and text content. -/

/-- A source file as seen by `DocumentLoader._load_text`: `dir` models
`file_path.parent`, `name` models `file_path.name` (with extension), `stem`
and `suffix` model `file_path.stem` / `file_path.suffix`, and `content` is
the text read from the file. -/
structure SrcFile where
  dir : List Char
  name : List Char
  stem : List Char
  suffix : List Char
  content : List Char
deriving DecidableEq

/-- The `Document` dataclass of ingest_documents.py. -/
structure Document where
  content : List Char
  title : List Char
  uri : List Char
  source_file : List Char
  tags : List (List Char × List Char)
deriving DecidableEq

/-- The `Document` built by `DocumentLoader._load_text` for the 0-based
chunk index `i` of a file that produced `total` chunks. -/
def mkTextDocument (f : SrcFile) (total : Nat) (chunk : List Char) (i : Nat) :
    Document where
  content := chunk
  title := if 1 < total then
      f.stem ++ " (Part ".toList ++ pyStrNat (i + 1) ++ [ '/'] ++
        pyStrNat total ++ [ ')']
    else f.stem
  uri := "mv2://docs/".toList ++ f.name ++ "#chunk-".toList ++ pyStrNat (i + 1)
  source_file := f.dir ++ [ '/'] ++ f.name
  tags := [("type".toList, f.suffix.dropWhile (fun c => c = '.')),
           ("chunk".toList, pyStrNat (i + 1)),
           ("total_chunks".toList, pyStrNat total)]

/-- `DocumentLoader._load_text`: chunk the file content and wrap every chunk
in a `Document` (the `enumerate` of the source is rendered as a map over
`List.range`). -/
def loadText (size ov : Nat) (f : SrcFile) : List Document :=
  let chunks := py_chunk_text size ov f.content
  (List.range chunks.length).map
    (fun i => mkTextDocument f chunks.length (chunks.getD i []) i)

/-- `DocumentLoader.load_directory`, restricted to the plain-text formats:
each enumerated file is loaded with `_load_text` and the result lists are
concatenated in traversal order.  (PDF and Word files go through external
parser libraries, but build their uri and chunk/total_chunks tags by the
identical scheme.) -/
def loadDirectoryText (size ov : Nat) (files : List SrcFile) : List Document :=
  files.flatMap (loadText size ov)

/-- Two source files with the same file name in different subdirectories,
as a recursive directory scan can produce. -/
def fileA : SrcFile :=
  ⟨"a".toList, "x.md".toList, "x".toList, ".md".toList, "hello".toList⟩

/-- Same file name as `fileA`, different directory and content. -/
def fileB : SrcFile :=
  ⟨"b".toList, "x.md".toList, "x".toList, ".md".toList, "world".toList⟩

/-! ## The Memory Store Adapter: store creation. -/

/-- The three backend variants of the memory store. -/
inductive Variant
  | sdk
  | cli
  | json
deriving DecidableEq

/-- Outcome of one `memvid` subprocess call: exit code 0, a non-zero exit
code, the binary not installed (`FileNotFoundError`), or any other raised
exception (e.g. a timeout). -/
inductive CliOutcome
  | exitZero
  | exitNonZero
  | notFound
  | otherError
deriving DecidableEq

/-- The environment a store-creation call runs in. -/
structure CreateEnv where
  sdk_available : Bool     -- `import memvid_sdk` succeeds
  sdk_create_raises : Bool -- `memvid_sdk.create(...)` raises
  cli : CliOutcome         -- behaviour of the `memvid create` subprocess
  fallback_write_ok : Bool -- writing the JSON fallback file succeeds
deriving DecidableEq

/-- Result of a creation call.  `outcome = none` means an exception escaped
to the caller; `attempts` instruments which backend variants the control
flow reached, in order. -/
structure CreateResult where
  outcome : Option Bool
  attempts : List Variant
deriving DecidableEq

/-- `MemvidIngester._create_fallback` (ingest_documents.py lines 253-264):
write an empty JSON store; failure only if the write raises. -/
def create_fallback (env : CreateEnv) : CreateResult :=
  ⟨some env.fallback_write_ok, [Variant.json]⟩

/-- `MemvidIngester._create_via_cli` (ingest_documents.py lines 233-251):
run `memvid create`; success iff exit code 0; a missing binary
(`FileNotFoundError`) falls back to the JSON store; any other exception is
caught and reported as failure. -/
def create_via_cli (env : CreateEnv) : CreateResult :=
  match env.cli with
  | CliOutcome.exitZero => ⟨some true, [Variant.cli]⟩
  | CliOutcome.exitNonZero => ⟨some false, [Variant.cli]⟩
  | CliOutcome.notFound =>
      let r := create_fallback env
      ⟨r.outcome, Variant.cli :: r.attempts⟩
  | CliOutcome.otherError => ⟨some false, [Variant.cli]⟩

/-- `MemvidIngester.create_memory` (ingest_documents.py lines 220-231):
prefer the SDK; when the SDK raises, cascade to the CLI (and from there
possibly to the JSON fallback). -/
def create_memory (env : CreateEnv) : CreateResult :=
  if env.sdk_available then
    if env.sdk_create_raises then
      let r := create_via_cli env
      ⟨r.outcome, Variant.sdk :: r.attempts⟩
    else ⟨some true, [Variant.sdk]⟩
  else create_via_cli env

/-- `MemvidMemory.create` (rag_example.py lines 131-159): an SDK error
returns failure outright (no CLI attempt); on the CLI path only a missing
binary is caught (failure, no JSON fallback) and any other exception
escapes to the caller. -/
def memvid_create (env : CreateEnv) : CreateResult :=
  if env.sdk_available then
    if env.sdk_create_raises then ⟨some false, [Variant.sdk]⟩
    else ⟨some true, [Variant.sdk]⟩
  else
    match env.cli with
    | CliOutcome.exitZero => ⟨some true, [Variant.cli]⟩
    | CliOutcome.exitNonZero => ⟨some false, [Variant.cli]⟩
    | CliOutcome.notFound => ⟨some false, [Variant.cli]⟩
    | CliOutcome.otherError => ⟨none, [Variant.cli]⟩

/-! ## The Memory Store Adapter: search. -/

/-- A backend search hit: a JSON object whose fields may individually be
missing (`hit.get(key, default)` in the source supplies defaults).  Python
float scores are modelled as rationals. -/
structure RawHit where
  text : Option (List Char)
  title : Option (List Char)
  score : Option Rat
  uri : Option (List Char)
deriving DecidableEq

/-- The SDK search path rebuilds each hit with defaulted fields
(rag_example.py lines 214-222). -/
def normalizeHit (h : RawHit) : RawHit :=
  ⟨some (h.text.getD []), some (h.title.getD []), some (h.score.getD 0),
    some (h.uri.getD [])⟩

/-- Behaviour of `memvid_sdk.open(...).find(query, k)`. -/
inductive SdkFind
  | raises
  | found (hits : List RawHit)
deriving DecidableEq

/-- What `json.loads(result.stdout)` yields on the CLI search path. -/
inductive CliStdout
  | invalidJson
  | jsonWithHits (hits : List RawHit)
  | jsonWithoutHits
deriving DecidableEq

/-- Outcome of the `memvid find` subprocess. -/
inductive CliSearch
  | raisesOrTimeout
  | exits (code : Nat) (stdout : CliStdout)
deriving DecidableEq

/-- `MemvidMemory.search(query, top_k, snippet_chars)` (rag_example.py lines
203-240).  `top_k` is only forwarded to the backend (`k=top_k` on the SDK
path, `--limit` on the CLI path); the backend's response is the environment
(`sdk` / `cli`).  A `none` result would mean an exception escaped; every
branch returns `some`. -/
def memvid_search (_top_k : Nat) (sdk_available : Bool) (sdk : SdkFind)
    (cli : CliSearch) : Option (List RawHit) :=
  if sdk_available then
    match sdk with
    | SdkFind.raises => some []
    | SdkFind.found hits => some (hits.map normalizeHit)
  else
    match cli with
    | CliSearch.raisesOrTimeout => some []
    | CliSearch.exits code out =>
        if code = 0 then
          match out with
          | CliStdout.invalidJson => some []
          | CliStdout.jsonWithHits hits => some hits
          | CliStdout.jsonWithoutHits => some []
        else some []

/-- The backend-error conditions named by the spec: the SDK raised; the CLI
raised or timed out; the CLI exited non-zero; the CLI printed non-JSON
output. -/
def backendError (sdk_available : Bool) (sdk : SdkFind) (cli : CliSearch) :
    Bool :=
  if sdk_available then
    match sdk with
    | SdkFind.raises => true
    | SdkFind.found _ => false
  else
    match cli with
    | CliSearch.raisesOrTimeout => true
    | CliSearch.exits code out =>
        if code = 0 then
          match out with
          | CliStdout.invalidJson => true
          | CliStdout.jsonWithHits _ => false
          | CliStdout.jsonWithoutHits => false
        else true

/-- The relevance score read from a hit: `hit.get("score", 0)`. -/
def hitScore (h : RawHit) : Rat := h.score.getD 0

/-- Hits in weakly descending relevance order. -/
def scoresDescending (hits : List RawHit) : Prop :=
  List.Pairwise (fun a b => hitScore b ≤ hitScore a) hits

instance (hits : List RawHit) : Decidable (scoresDescending hits) := by
  unfold scoresDescending
  infer_instance

/-- A hit with score 0. -/
def hitLow : RawHit :=
  ⟨some ("a".toList), some ("A".toList), some 0, some ("ua".toList)⟩

/-- A hit with score 1. -/
def hitHigh : RawHit :=
  ⟨some ("b".toList), some ("B".toList), some 1, some ("ub".toList)⟩

/-! ## The Retrieval-Augmented Query Engine: context formatting
(`InfrastructureRAG.retrieve`, rag_example.py lines 319-341). -/

/-- Round a rational to the nearest integer, ties to even (the rounding of
Python's fixed-point float formatting, with floats modelled as rationals). -/
def roundHalfEven (q : Rat) : Int :=
  let f : Int := q.floor
  let r : Rat := q - f
  if r < 1/2 then f
  else if 1/2 < r then f + 1
  else if f % 2 = 0 then f else f + 1

/-- Python `f"{score:.2f}"` on a rational score. -/
def formatScore (q : Rat) : List Char :=
  let n := roundHalfEven (q * 100)
  let sign : List Char := if n < 0 then [ '-'] else []
  let m := n.natAbs
  sign ++ pyStrNat (m / 100) ++ [ '.'] ++
    (if m % 100 < 10 then [ '0'] else []) ++ pyStrNat (m % 100)

/-- The exact sentinel `retrieve` returns when the search found nothing. -/
def sentinel : List Char :=
  "No relevant documents found in knowledge base.".toList

/-- The section header `retrieve` writes for the `i`-th hit (1-based):
`### Document {i}: {title} (relevance: {score:.2f})`, with
`title = hit.get("title", "Untitled")` and `score = hit.get("score", 0)`. -/
def hitHeader (i : Nat) (h : RawHit) : List Char :=
  "### Document ".toList ++ pyStrNat i ++ ": ".toList ++
    (h.title.getD ("Untitled".toList)) ++ " (relevance: ".toList ++
    formatScore (hitScore h) ++ [ ')']

/-- The `context_parts` list built by `retrieve`: for each hit (enumerated
from 1), its header, its text (`hit.get("text", "")`), and an empty
separator entry. -/
def contextParts (results : List RawHit) : List (List Char) :=
  (List.enumFrom 1 results).flatMap
    (fun p => [hitHeader p.1 p.2, p.2.text.getD [], []])

/-- The value `retrieve` computes from the search results: the sentinel when
`results` is empty, otherwise `"\n".join(context_parts)`. -/
def retrieveContext (results : List RawHit) : List Char :=
  if results.isEmpty then sentinel
  else List.intercalate [ '\n'] (contextParts results)

/-- `InfrastructureRAG.retrieve(query)`: search, then format. -/
def rag_retrieve (top_k : Nat) (sa : Bool) (sdk : SdkFind) (cli : CliSearch) :
    Option (List Char) :=
  (memvid_search top_k sa sdk cli).map retrieveContext

/-- Modelled from the spec: the header form the claim states, literally
`Document i: <title> (relevance: <score to 2 decimals>)` — without the
markdown `### ` marker the code actually writes.  Used only to compare the
claimed format against the implemented one. -/
def specHitHeader (i : Nat) (h : RawHit) : List Char :=
  "Document ".toList ++ pyStrNat i ++ ": ".toList ++
    (h.title.getD ("Untitled".toList)) ++ " (relevance: ".toList ++
    formatScore (hitScore h) ++ [ ')']

/-- Modelled from the spec: the context block as the claim words it, built
from `specHitHeader` sections. -/
def specContext (results : List RawHit) : List Char :=
  if results.isEmpty then sentinel
  else List.intercalate [ '\n']
    ((List.enumFrom 1 results).flatMap
      (fun p => [specHitHeader p.1 p.2, p.2.text.getD [], []]))

/-- Closed form of the non-sentinel context: each section is the header, a
newline, the hit text and a newline, with an extra blank line between
consecutive sections. -/
def sectionsFrom (i : Nat) : List RawHit → List Char
  | [] => []
  | [h] => hitHeader i h ++ [ '\n'] ++ h.text.getD [] ++ [ '\n']
  | h :: h2 :: t =>
      hitHeader i h ++ [ '\n'] ++ h.text.getD [] ++ [ '\n', '\n'] ++
        sectionsFrom (i + 1) (h2 :: t)

/-- A CLI search environment answering with the single hit `hitHigh`. -/
def cliOneHit : CliSearch :=
  CliSearch.exits 0 (CliStdout.jsonWithHits [hitHigh])

/-! ## Events of the CLI-variant temporary-file paths. -/

/-- Events of one CLI-variant document-add call. -/
inductive Ev
  | createTemp
  | runPut
  | unlinkTemp
  | ret (ok : Bool)
deriving DecidableEq

/-- Outcome of the `memvid put` subprocess. -/
inductive RunOutcome
  | exits (code : Nat)
  | raisesException
deriving DecidableEq

/-- `MemvidMemory.add_document`, CLI path (rag_example.py lines 182-201):
write the content to a named temp file; run `memvid put`; on normal return
unlink the temp file and report `returncode == 0`; on a raised exception
unlink it in the handler and report failure. -/
def add_document_cli (run : RunOutcome) : List Ev :=
  Ev.createTemp ::
    match run with
    | RunOutcome.exits code => [Ev.runPut, Ev.unlinkTemp, Ev.ret (code == 0)]
    | RunOutcome.raisesException => [Ev.runPut, Ev.unlinkTemp, Ev.ret false]

/-- One loop body of `MemvidIngester._ingest_via_cli` (ingest_documents.py
lines 319-334): temp file, `memvid put` inside `try`, `os.unlink` in the
`finally` block; success is counted only on exit code 0. -/
def ingest_cli_doc (run : RunOutcome) : List Ev :=
  Ev.createTemp ::
    match run with
    | RunOutcome.exits code => [Ev.runPut, Ev.unlinkTemp, Ev.ret (code == 0)]
    | RunOutcome.raisesException => [Ev.runPut, Ev.unlinkTemp, Ev.ret false]

/-- The whole `_ingest_via_cli` loop: one temp-file scope per document. -/
def ingest_cli_trace (runs : List RunOutcome) : List Ev :=
  runs.flatMap ingest_cli_doc

/-! ## Elementary lemmas about the Python-string primitives. -/

lemma pyStrip_length_le (s : List Char) : (pyStrip s).length ≤ s.length := by
  unfold pyStrip
  calc ((s.dropWhile isPyWhitespace).reverse.dropWhile isPyWhitespace).reverse.length
      = ((s.dropWhile isPyWhitespace).reverse.dropWhile isPyWhitespace).length := by
        rw [List.length_reverse]
    _ ≤ (s.dropWhile isPyWhitespace).reverse.length :=
        List.Sublist.length_le (List.dropWhile_sublist _)
    _ = (s.dropWhile isPyWhitespace).length := by rw [List.length_reverse]
    _ ≤ s.length := List.Sublist.length_le (List.dropWhile_sublist _)

lemma isPrefixOf_length {sub l : List Char} (h : sub.isPrefixOf l = true) :
    sub.length ≤ l.length := by
  induction sub generalizing l with
  | nil => simp
  | cons a as ih =>
      cases l with
      | nil => simp [List.isPrefixOf] at h
      | cons b bs =>
          simp only [List.isPrefixOf, Bool.and_eq_true] at h
          exact Nat.succ_le_succ (ih h.2)

lemma getLast?_mem {α : Type} {l : List α} {a : α} (h : l.getLast? = some a) :
    a ∈ l := by
  induction l with
  | nil => simp at h
  | cons b t ih =>
      cases t with
      | nil => simp at h; simp [h]
      | cons c u =>
          rw [List.getLast?_cons_cons] at h
          exact List.mem_cons_of_mem _ (ih h)

/-- `pyRfind` either fails with `-1` or returns a genuine occurrence index. -/
lemma pyRfind_spec (sub s : List Char) :
    pyRfind sub s = -1 ∨
      ∃ i : Nat, pyRfind sub s = (i : Int) ∧ i ≤ s.length ∧
        sub.isPrefixOf (s.drop i) = true := by
  unfold pyRfind
  cases h : ((List.range (s.length + 1)).filter
      (fun i => sub.isPrefixOf (s.drop i))).getLast? with
  | none => exact Or.inl rfl
  | some i =>
      have hmem := getLast?_mem h
      have hrange := List.mem_range.mp (List.mem_filter.mp hmem).1
      refine Or.inr ⟨i, rfl, by omega, (List.mem_filter.mp hmem).2⟩

/-- An occurrence found by `pyRfind` fits inside the string. -/
lemma pyRfind_add_le (sub s : List Char) (i : Nat)
    (h : pyRfind sub s = (i : Int)) : i + sub.length ≤ s.length := by
  rcases pyRfind_spec sub s with hnone | ⟨j, hj, hjle, hpre⟩
  · rw [h] at hnone; omega
  · rw [h] at hj
    have hij : i = j := by exact_mod_cast hj
    subst hij
    have := isPrefixOf_length hpre
    rw [List.length_drop] at this
    omega

lemma pySlice_length_le (s : List Char) (a b : Int) (hab : a ≤ b) :
    (pySlice s a b).length ≤ (b - a).toNat := by
  unfold pySlice
  have htake := List.length_take_le
    ((if b < 0 then max 0 ((s.length : Int) + b) else min b (s.length : Int)).toNat -
      (if a < 0 then max 0 ((s.length : Int) + a) else min a (s.length : Int)).toNat)
    (s.drop ((if a < 0 then max 0 ((s.length : Int) + a) else min a (s.length : Int)).toNat))
  refine le_trans htake ?_
  split_ifs <;> omega

/-! ## Bounds for the `_chunk_text` loop. -/

lemma ingestBreakPoint_pos (size : Nat) (chunk : List Char) (hs : 0 < size) :
    1 ≤ ingestBreakPoint size chunk := by
  simp only [ingestBreakPoint]
  split_ifs with h1 h2 h3 <;> omega

lemma ingestBreakPoint_le (size : Nat) (chunk : List Char)
    (hc : chunk.length ≤ size) : ingestBreakPoint size chunk ≤ size := by
  simp only [ingestBreakPoint]
  split_ifs with h1 h2 h3
  · rcases pyRfind_spec [ '\n', '\n'] chunk with hn | ⟨i, hi, hile, hpre⟩
    · rw [hn] at h1; omega
    · have := pyRfind_add_le [ '\n', '\n'] chunk i hi
      rw [hi]
      simp only [List.length_cons, List.length_nil] at this
      omega
  · rcases pyRfind_spec [ '.', ' '] chunk with hn | ⟨i, hi, hile, hpre⟩
    · rw [hn] at h2; omega
    · have := pyRfind_add_le [ '.', ' '] chunk i hi
      rw [hi]
      simp only [List.length_cons, List.length_nil] at this
      omega
  · rcases pyRfind_spec [ '\n'] chunk with hn | ⟨i, hi, hile, hpre⟩
    · rw [hn] at h3; omega
    · have := pyRfind_add_le [ '\n'] chunk i hi
      rw [hi]
      simp only [List.length_cons, List.length_nil] at this
      omega
  · exact le_refl _

lemma ingestEnd_lb (size : Nat) (text : List Char) (start : Nat) (hs : 0 < size) :
    start + 1 ≤ ingestEnd size text start := by
  unfold ingestEnd
  split_ifs with h
  · have := ingestBreakPoint_pos size ((text.drop start).take size) hs
    omega
  · omega

lemma ingestEnd_sub_le (size : Nat) (text : List Char) (start : Nat) :
    ingestEnd size text start - start ≤ size := by
  unfold ingestEnd
  split_ifs with h
  · have hlen : ((text.drop start).take size).length ≤ size :=
      List.length_take_le size (text.drop start)
    have := ingestBreakPoint_le size ((text.drop start).take size) hlen
    omega
  · omega

lemma ingestNext_gt (size ov : Nat) (text : List Char) (start : Nat) :
    start < ingestNext size ov text start := by
  unfold ingestNext
  omega

lemma ingestNext_le_end (size ov : Nat) (text : List Char) (start : Nat)
    (hs : 0 < size) : ingestNext size ov text start ≤ ingestEnd size text start := by
  have := ingestEnd_lb size text start hs
  unfold ingestNext
  omega

lemma chunkLoopF_stop (fuel size ov : Nat) (text : List Char) (start : Nat)
    (h : ¬ start < text.length) : chunkLoopF fuel size ov text start = [] := by
  cases fuel with
  | zero => rfl
  | succ n => simp only [chunkLoopF, if_neg h]

/-! ## Claim C1: cursor progress and termination of the chunking loop. -/

/-- C1 (code bug): on the 20-character text `aaaa…a` with `chunk_size = 10`
and `overlap = 10`, the `chunk_text` loop of rag_example.py recomputes
`start = end - overlap = 0` forever: no amount of fuel finishes the loop, so
the cursor does not strictly increase and chunking does not terminate.
(`DocumentLoader._chunk_text` has the `max(start + 1, …)` clamp and does
progress; `chunk_text` omits it.) -/
theorem rag_chunk_stuck :
    ∀ fuel, ragLoop 10 10 (List.replicate 20 'a') fuel 0 = none := by
  intro fuel
  induction fuel with
  | zero => rfl
  | succ n ih =>
      have hstep : (ragStep 10 10 (List.replicate 20 'a') 0).2 = 0 := by decide
      have hlt : (0 : Int) < ((List.replicate 20 'a').length : Int) := by decide
      simp only [ragLoop, if_pos hlt, hstep, ih]

/-! ## Claim C2: coverage of the text by the chunk windows. -/

/-- C2 (counterexample): with `chunk_size = 800 > 0` and
`overlap = 100 < 800`, the single-space text produces no chunks at all, so
its character appears in no returned chunk (it is removed by trimming). -/
theorem chunk_cover_cex :
    ' ' ∈ [ ' '] ∧ py_chunk_text 800 100 [ ' '] = [] := by decide

lemma ingestWindowsF_cover (size ov : Nat) (text : List Char) (hs : 0 < size) :
    ∀ fuel start i, text.length ≤ start + fuel → start ≤ i → i < text.length →
      ∃ w ∈ ingestWindowsF fuel size ov text start, w.1 ≤ i ∧ i < w.2 := by
  intro fuel
  induction fuel with
  | zero => intro start i hf hsi hil; omega
  | succ n ih =>
      intro start i hf hsi hil
      have hlt : start < text.length := by omega
      simp only [ingestWindowsF, if_pos hlt]
      by_cases hend : i < ingestEnd size text start
      · exact ⟨(start, ingestEnd size text start), List.mem_cons_self _ _, hsi, hend⟩
      · have h1 := ingestEnd_lb size text start hs
        have h2 := ingestNext_le_end size ov text start hs
        have h3 := ingestNext_gt size ov text start
        obtain ⟨w, hw, hwi⟩ :=
          ih (ingestNext size ov text start) i (by omega) (by omega) hil
        exact ⟨w, List.mem_cons_of_mem _ hw, hwi⟩

/-- C2 (amended): for `chunk_size > 0` and `overlap < chunk_size`, the
successive `[start, end)` windows taken by `DocumentLoader._chunk_text`
cover the text with no gaps: every character position lies in at least one
window.  (A character can still be missing from the returned chunks when
whitespace trimming removes it, per `chunk_cover_cex`.) -/
theorem chunk_windows_cover (size ov : Nat) (text : List Char)
    (hs : 0 < size) (_ho : ov < size) :
    ∀ i, i < text.length →
      ∃ w ∈ ingestWindows size ov text, w.1 ≤ i ∧ i < w.2 := by
  intro i hi
  exact ingestWindowsF_cover size ov text hs text.length 0 i (by omega) (by omega) hi

theorem chunk_windows_cover_witness :
    ∃ w ∈ ingestWindows 2 1 [ 'a', 'b'], w.1 ≤ 1 ∧ 1 < w.2 :=
  chunk_windows_cover 2 1 [ 'a', 'b'] (by decide) (by decide) 1 (by decide)

/-! ## Claim C3: texts shorter than `chunk_size`. -/

/-- C3 (counterexample): the non-empty 7-character text `abcdefg` is shorter
than `chunk_size = 10`, yet with `overlap = 5` the chunker returns two
chunks (`start` advances only to `size - overlap = 5 < 7`, re-reading the
tail); and the non-empty single-space text returns no chunks at all. -/
theorem chunk_short_cex :
    (py_chunk_text 10 5 ("abcdefg".toList)).length = 2 ∧
      py_chunk_text 10 1 [ ' '] = [] := by decide

/-- C3 (amended): a text whose whitespace-trim is non-empty and whose length
is at most `max 1 (chunk_size - overlap)` yields exactly one chunk, the
trimmed input; the empty text yields the empty sequence. -/
theorem chunk_short_single (size ov : Nat) (text : List Char) (hs : 0 < size)
    (hne : pyStrip text ≠ []) (hlen : text.length ≤ max 1 (size - ov)) :
    py_chunk_text size ov text = [pyStrip text] ∧
      py_chunk_text size ov ([] : List Char) = [] := by
  refine ⟨?_, rfl⟩
  have htne : text ≠ [] := by
    intro h; rw [h] at hne; exact hne rfl
  have hpos : 0 < text.length := List.length_pos.mpr htne
  have hsz : text.length ≤ size := by omega
  obtain ⟨k, hk⟩ : ∃ k, text.length = k + 1 := ⟨text.length - 1, by omega⟩
  have hEnd : ingestEnd size text 0 = size := by
    unfold ingestEnd
    rw [if_neg (by omega)]
    omega
  have hChunk : ingestChunk size text 0 = pyStrip text := by
    unfold ingestChunk
    rw [hEnd, List.drop_zero, Nat.sub_zero, List.take_of_length_le hsz]
  have hNext : text.length ≤ ingestNext size ov text 0 := by
    unfold ingestNext
    rw [hEnd]
    omega
  unfold py_chunk_text
  rw [hk]
  simp only [chunkLoopF]
  rw [if_pos (by omega : (0:Nat) < text.length), hChunk,
    chunkLoopF_stop k size ov text _ (by omega), if_neg]
  simp only [List.isEmpty_iff]
  exact hne

theorem chunk_short_single_witness :
    py_chunk_text 10 5 ("abc".toList) = [pyStrip ("abc".toList)] ∧
      py_chunk_text 10 5 ([] : List Char) = [] :=
  chunk_short_single 10 5 ("abc".toList) (by decide) (by decide) (by decide)

/-! ## Claim C10: every returned chunk is at most `chunk_size` long. -/

lemma chunkLoopF_length_le (size ov : Nat) (text : List Char) :
    ∀ fuel start c, c ∈ chunkLoopF fuel size ov text start → c.length ≤ size := by
  intro fuel
  induction fuel with
  | zero => intro start c hc; simp [chunkLoopF] at hc
  | succ n ih =>
      intro start c hc
      by_cases hlt : start < text.length
      · simp only [chunkLoopF, if_pos hlt] at hc
        have hchunk : (ingestChunk size text start).length ≤ size := by
          unfold ingestChunk
          refine le_trans (pyStrip_length_le _) ?_
          exact le_trans (List.length_take_le _ _) (ingestEnd_sub_le size text start)
        split at hc
        · exact ih _ c hc
        · rcases List.mem_cons.mp hc with rfl | hc
          · exact hchunk
          · exact ih _ c hc
      · rw [chunkLoopF_stop _ _ _ _ _ hlt] at hc
        simp at hc

lemma ragStep_fst_length_le (size ov : Nat) (text : List Char) (start : Int) :
    (ragStep size ov text start).1.length ≤ size := by
  have hchunk : (pySlice text start (start + size)).length ≤ size := by
    have h := pySlice_length_le text start (start + size) (by omega)
    have : ((start + (size : Int)) - start).toNat = size := by omega
    rwa [this] at h
  simp only [ragStep]
  split_ifs with h1 h2
  · -- shortened at the break point
    set chunk := pySlice text start (start + (size : Int)) with hchunkdef
    set lp := pyRfind [ '.'] chunk with hlp
    set ln := pyRfind [ '\n'] chunk with hln
    have hbp0 : (0 : Int) ≤ max lp ln := by
      have : ((size / 2 : Nat) : Int) ≥ 0 := by omega
      omega
    have hbound : (max lp ln).toNat + 1 ≤ size := by
      rcases max_choice lp ln with hmax | hmax
      · rw [hmax] at hbp0 ⊢
        rcases pyRfind_spec [ '.'] chunk with hn | ⟨i, hi, hile, hpre⟩
        · rw [← hlp] at hn; omega
        · rw [← hlp] at hi
          have := pyRfind_add_le [ '.'] chunk i (by rw [← hlp]; exact hi)
          simp only [List.length_cons, List.length_nil] at this
          have hcl : chunk.length ≤ size := hchunk
          rw [hi]
          omega
      · rw [hmax] at hbp0 ⊢
        rcases pyRfind_spec [ '\n'] chunk with hn | ⟨i, hi, hile, hpre⟩
        · rw [← hln] at hn; omega
        · rw [← hln] at hi
          have := pyRfind_add_le [ '\n'] chunk i (by rw [← hln]; exact hi)
          simp only [List.length_cons, List.length_nil] at this
          have hcl : chunk.length ≤ size := hchunk
          rw [hi]
          omega
    have hsl := pySlice_length_le text start (start + max lp ln + 1) (by omega)
    have heq : ((start + max lp ln + 1) - start).toNat = (max lp ln).toNat + 1 := by
      omega
    rw [heq] at hsl
    exact le_trans hsl hbound
  · exact hchunk
  · exact hchunk

lemma ragLoop_length_le (size ov : Nat) (text : List Char) :
    ∀ fuel start res, ragLoop size ov text fuel start = some res →
      ∀ c ∈ res, c.length ≤ size := by
  intro fuel
  induction fuel with
  | zero =>
      intro start res h
      exact absurd h (by simp [ragLoop])
  | succ n ih =>
      intro start res h c hc
      simp only [ragLoop] at h
      by_cases hlt : start < (text.length : Int)
      · rw [if_pos hlt] at h
        cases hrec : ragLoop size ov text n (ragStep size ov text start).2 with
        | none => rw [hrec] at h; exact absurd h (by simp)
        | some rest =>
            rw [hrec] at h
            injection h with h
            subst h
            rcases List.mem_cons.mp hc with rfl | hmem
            · exact le_trans (pyStrip_length_le _) (ragStep_fst_length_le size ov text start)
            · exact ih _ rest hrec c hmem
      · rw [if_neg hlt] at h
        injection h with h
        subst h
        simp at hc

/-- C10 (confirmed): for `chunk_size > 0` and any overlap, every chunk
returned by either chunker (`DocumentLoader._chunk_text` and rag_example's
`chunk_text`) has length at most `chunk_size`: the boundary adjustment and
trimming only ever shorten the window. -/
theorem chunk_length_bound (size ov : Nat) (text : List Char) (_hs : 0 < size) :
    (∀ c ∈ py_chunk_text size ov text, c.length ≤ size) ∧
      (∀ fuel res, rag_chunk_text size ov text fuel = some res →
        ∀ c ∈ res, c.length ≤ size) := by
  constructor
  · intro c hc
    exact chunkLoopF_length_le size ov text text.length 0 c hc
  · intro fuel res h c hc
    unfold rag_chunk_text at h
    cases hrun : ragLoop size ov text fuel 0 with
    | none => rw [hrun] at h; exact absurd h (by simp)
    | some res0 =>
        rw [hrun] at h
        simp only [Option.map_some'] at h
        injection h with h
        subst h
        exact ragLoop_length_le size ov text fuel 0 res0 hrun c
          (List.mem_of_mem_filter hc)

theorem chunk_length_bound_witness :
    ("ab".toList).length ≤ 2 :=
  (chunk_length_bound 2 1 ("ab".toList) (by decide)).1 ("ab".toList) (by decide)

/-! ## Decimal rendering is injective (needed for uri uniqueness). -/

lemma digitChar_toNat (d : Nat) (hd : d < 10) :
    (Char.ofNat (48 + d)).toNat = 48 + d := by
  interval_cases d <;> decide

lemma unDigits_natDigitsAux : ∀ fuel n, n ≤ fuel →
    unDigits (natDigitsAux fuel n) = n := by
  intro fuel
  induction fuel with
  | zero =>
      intro n hn
      have : n = 0 := by omega
      subst this; rfl
  | succ m ih =>
      intro n hn
      cases n with
      | zero => rfl
      | succ k =>
          simp only [natDigitsAux, unDigits]
          rw [digitChar_toNat ((k + 1) % 10) (Nat.mod_lt _ (by omega))]
          have hdiv : (k + 1) / 10 ≤ m := by
            have := Nat.div_lt_self (Nat.succ_pos k) (by omega : 1 < 10)
            omega
          rw [ih ((k + 1) / 10) hdiv]
          omega

lemma pyStrNat_inj {m n : Nat} (h : pyStrNat m = pyStrNat n) : m = n := by
  unfold pyStrNat at h
  by_cases hm : m = 0 <;> by_cases hn : n = 0
  · omega
  · rw [if_pos hm, if_neg hn] at h
    have hrev : natDigitsAux n n = [ '0'] := by
      have := congrArg List.reverse h
      simpa using this.symm
    have := unDigits_natDigitsAux n n (le_refl n)
    rw [hrev] at this
    simp [unDigits] at this
    omega
  · rw [if_neg hm, if_pos hn] at h
    have hrev : natDigitsAux m m = [ '0'] := by
      have := congrArg List.reverse h
      simpa using this
    have := unDigits_natDigitsAux m m (le_refl m)
    rw [hrev] at this
    simp [unDigits] at this
    omega
  · rw [if_neg hm, if_neg hn] at h
    have hrev : natDigitsAux m m = natDigitsAux n n :=
      List.reverse_injective h
    have h1 := unDigits_natDigitsAux m m (le_refl m)
    have h2 := unDigits_natDigitsAux n n (le_refl n)
    rw [hrev] at h1
    rw [h1] at h2
    omega

/-! ## Claim C4: uri uniqueness and tag consistency. -/

/-- C4 (counterexample): the uri is built from the file *name* only
(`mv2://docs/<name>#chunk-<i>`), so one ingestion run over a directory
holding `a/x.md` and `b/x.md` produces two Documents with the same uri —
uris are not pairwise distinct across a run. -/
theorem uri_unique_cex :
    ¬ (((loadDirectoryText 800 100 [fileA, fileB]).map Document.uri).Nodup) := by
  decide

/-- C4 (amended): uris are pairwise distinct among the Documents produced
from a single *file*, and every produced Document's tags satisfy
`1 ≤ chunk ≤ total_chunks`; across a whole directory run two files sharing
a file name collide (see `uri_unique_cex`). -/
theorem loader_uri_tags (size ov : Nat) (f : SrcFile) (files : List SrcFile) :
    ((loadText size ov f).map Document.uri).Nodup ∧
      (∀ d, d ∈ loadDirectoryText size ov files →
        ∃ c t : Nat, d.tags.lookup ("chunk".toList) = some (pyStrNat c) ∧
          d.tags.lookup ("total_chunks".toList) = some (pyStrNat t) ∧
          1 ≤ c ∧ c ≤ t) := by
  constructor
  · unfold loadText
    rw [List.map_map]
    have hinj : Function.Injective (fun i : Nat =>
        "mv2://docs/".toList ++ f.name ++ "#chunk-".toList ++ pyStrNat (i + 1)) := by
      intro i j hij
      simp only [List.append_assoc] at hij
      have h1 := List.append_cancel_left hij
      have h2 := List.append_cancel_left h1
      have h3 := List.append_cancel_left h2
      have := pyStrNat_inj h3
      omega
    exact List.Nodup.map hinj (List.nodup_range _)
  · intro d hd
    obtain ⟨f0, hf0, hdf0⟩ := List.mem_flatMap.mp hd
    unfold loadText at hdf0
    obtain ⟨i, hi, hdef⟩ := List.mem_map.mp hdf0
    have hilt := List.mem_range.mp hi
    refine ⟨i + 1, (py_chunk_text size ov f0.content).length, ?_, ?_, by omega, by omega⟩
    · rw [← hdef]; rfl
    · rw [← hdef]; rfl

theorem loader_uri_tags_witness :
    ∃ c t : Nat,
      (mkTextDocument fileA 1 ("hello".toList) 0).tags.lookup ("chunk".toList) =
          some (pyStrNat c) ∧
        (mkTextDocument fileA 1 ("hello".toList) 0).tags.lookup
            ("total_chunks".toList) = some (pyStrNat t) ∧
          1 ≤ c ∧ c ≤ t :=
  (loader_uri_tags 800 100 fileA [fileA]).2
    (mkTextDocument fileA 1 ("hello".toList) 0) (by decide)

/-! ## Claim C5: fallback ordering of store creation. -/

/-- C5 (counterexample): `MemvidMemory.create` of rag_example.py does not
cascade.  When the SDK raises it reports failure without attempting the CLI
(even though the CLI would succeed), and when the SDK is unavailable and the
CLI binary is missing it reports failure instead of succeeding via the JSON
fallback. -/
theorem create_cascade_cex :
    memvid_create ⟨true, true, CliOutcome.exitZero, true⟩ =
        ⟨some false, [Variant.sdk]⟩ ∧
      memvid_create ⟨false, false, CliOutcome.notFound, true⟩ =
        ⟨some false, [Variant.cli]⟩ := by
  decide

/-- C5 (amended): the cascade holds for `MemvidIngester.create_memory`
(ingest_documents.py): when the SDK raises it attempts the CLI next, and
whenever the CLI binary is missing and the fallback write succeeds, creation
reports success via the JSON variant; `MemvidMemory.create` of
rag_example.py does not cascade (see `create_cascade_cex`). -/
theorem create_memory_cascade (env : CreateEnv)
    (h1 : env.sdk_available = true) (h2 : env.sdk_create_raises = true) :
    (create_memory env).attempts.take 2 = [Variant.sdk, Variant.cli] ∧
      (env.cli = CliOutcome.notFound → env.fallback_write_ok = true →
        (create_memory env).outcome = some true ∧
          (create_memory env).attempts =
            [Variant.sdk, Variant.cli, Variant.json]) := by
  obtain ⟨sa, sr, cli, fb⟩ := env
  simp only at h1 h2
  subst h1
  subst h2
  cases cli with
  | exitZero => exact ⟨rfl, by intro h; cases h⟩
  | exitNonZero => exact ⟨rfl, by intro h; cases h⟩
  | otherError => exact ⟨rfl, by intro h; cases h⟩
  | notFound =>
      refine ⟨rfl, fun _ hfb => ?_⟩
      cases fb with
      | false => cases hfb
      | true => exact ⟨rfl, rfl⟩

theorem create_memory_cascade_witness :
    (create_memory ⟨true, true, CliOutcome.notFound, true⟩).outcome = some true :=
  ((create_memory_cascade ⟨true, true, CliOutcome.notFound, true⟩ rfl rfl).2
    rfl rfl).1

/-! ## Claim C6: search degrades to an empty result, never raises. -/

/-- C6 (confirmed): for every query environment, `MemvidMemory.search`
returns (never lets an exception escape), and on any backend error — SDK
exception, CLI exception/timeout, non-zero exit status, or malformed
(non-JSON) output — it returns the empty hit list. -/
theorem search_never_raises (top_k : Nat) (sa : Bool) (sdk : SdkFind)
    (cli : CliSearch) :
    (memvid_search top_k sa sdk cli).isSome = true ∧
      (backendError sa sdk cli = true →
        memvid_search top_k sa sdk cli = some []) := by
  cases sa with
  | true =>
      cases sdk with
      | raises => exact ⟨rfl, fun _ => rfl⟩
      | found hits => exact ⟨rfl, fun h => by cases h⟩
  | false =>
      cases cli with
      | raisesOrTimeout => exact ⟨rfl, fun _ => rfl⟩
      | exits code out =>
          by_cases hc : code = 0
          · subst hc
            cases out with
            | invalidJson => exact ⟨rfl, fun _ => rfl⟩
            | jsonWithHits hits => exact ⟨rfl, fun h => by cases h⟩
            | jsonWithoutHits => exact ⟨rfl, fun _ => rfl⟩
          · constructor
            · simp only [memvid_search, Bool.false_eq_true, if_false,
                if_neg hc]
              cases out <;> rfl
            · intro _
              simp only [memvid_search, Bool.false_eq_true, if_false,
                if_neg hc]

theorem search_never_raises_witness :
    memvid_search 5 false SdkFind.raises
        (CliSearch.exits 1 CliStdout.jsonWithoutHits) = some [] :=
  (search_never_raises 5 false SdkFind.raises
    (CliSearch.exits 1 CliStdout.jsonWithoutHits)).2 (by decide)

/-! ## Claim C7: top-k truncation and score ordering. -/

/-- C7 (counterexample): with `top_k = 1` and a backend that answers with
two hits in ascending score order, `search` returns both hits in backend
order: it neither truncates to `top_k` nor re-sorts by descending score. -/
theorem search_topk_cex :
    memvid_search 1 true (SdkFind.found [hitLow, hitHigh])
        CliSearch.raisesOrTimeout =
        some [normalizeHit hitLow, normalizeHit hitHigh] ∧
      1 < [normalizeHit hitLow, normalizeHit hitHigh].length ∧
      hitScore (normalizeHit hitLow) < hitScore (normalizeHit hitHigh) := by
  decide

/-- C7 (amended): `search` forwards `top_k` to the backend and passes the
backend's hits through unmodified (the SDK path re-keys each hit with
defaulted fields).  Whenever the backend response itself has at most
`top_k` hits in descending score order, the returned sequence does too; the
adapter itself never truncates or re-sorts. -/
theorem search_passthrough (top_k : Nat) (hits : List RawHit)
    (h1 : hits.length ≤ top_k) (h2 : scoresDescending hits) :
    (∀ cli, ∃ res,
        memvid_search top_k true (SdkFind.found hits) cli = some res ∧
          res.length ≤ top_k ∧ scoresDescending res) ∧
      (∀ sdk, ∃ res,
        memvid_search top_k false sdk
            (CliSearch.exits 0 (CliStdout.jsonWithHits hits)) = some res ∧
          res.length ≤ top_k ∧ scoresDescending res) := by
  constructor
  · intro cli
    refine ⟨hits.map normalizeHit, rfl, by simpa using h1, ?_⟩
    unfold scoresDescending at h2 ⊢
    rw [List.pairwise_map]
    refine h2.imp ?_
    intro a b hab
    simpa [hitScore, normalizeHit] using hab
  · intro sdk
    exact ⟨hits, rfl, h1, h2⟩

theorem search_passthrough_witness :
    ∃ res,
      memvid_search 2 true (SdkFind.found [hitHigh, hitLow])
          CliSearch.raisesOrTimeout = some res ∧
        res.length ≤ 2 ∧ scoresDescending res :=
  (search_passthrough 2 [hitHigh, hitLow] (by decide) (by decide)).1
    CliSearch.raisesOrTimeout

/-! ## Claim C8: the retrieve context block. -/

/-- C8 (counterexample): on a single backend hit the code's context block
differs from the claim's stated form: the code prefixes each section header
with the markdown marker `### `. -/
theorem retrieve_header_cex :
    retrieveContext [hitHigh] ≠ specContext [hitHigh] := by decide

lemma intercalate_cons_of_ne_nil {α : Type} (sep x : List α)
    (l : List (List α)) (h : l ≠ []) :
    List.intercalate sep (x :: l) = x ++ sep ++ List.intercalate sep l := by
  cases l with
  | nil => exact absurd rfl h
  | cons y t =>
      simp [List.intercalate, List.intersperse_cons_cons, List.append_assoc]

lemma intercalate_pair {α : Type} (sep x y : List α) :
    List.intercalate sep [x, y] = x ++ sep ++ y := by
  simp [List.intercalate, List.intersperse_cons_cons, List.append_assoc]

lemma sections_eq_intercalate :
    ∀ (t : List RawHit) (i : Nat) (h : RawHit),
      List.intercalate [ '\n'] ((List.enumFrom i (h :: t)).flatMap
          (fun p => [hitHeader p.1 p.2, p.2.text.getD [], []])) =
        sectionsFrom i (h :: t) := by
  intro t
  induction t with
  | nil =>
      intro i h
      simp only [List.enumFrom, List.flatMap_cons, List.flatMap_nil,
        List.append_nil, sectionsFrom]
      rw [intercalate_cons_of_ne_nil _ _ _ (by simp),
        intercalate_pair]
      simp [List.append_assoc]
  | cons h2 t2 ih =>
      intro i h
      have hrest : (List.enumFrom (i + 1) (h2 :: t2)).flatMap
          (fun p => [hitHeader p.1 p.2, p.2.text.getD [], []]) ≠ [] := by
        show hitHeader (i + 1) h2 :: _ ≠ []
        exact List.cons_ne_nil _ _
      have hflat : (List.enumFrom i (h :: h2 :: t2)).flatMap
          (fun p => [hitHeader p.1 p.2, p.2.text.getD [], []]) =
          hitHeader i h :: h.text.getD [] :: ([] : List Char) ::
            (List.enumFrom (i + 1) (h2 :: t2)).flatMap
              (fun p => [hitHeader p.1 p.2, p.2.text.getD [], []]) := rfl
      rw [hflat,
        intercalate_cons_of_ne_nil _ _ _ (List.cons_ne_nil _ _),
        intercalate_cons_of_ne_nil _ _ _ (List.cons_ne_nil _ _),
        intercalate_cons_of_ne_nil _ _ _ hrest,
        ih (i + 1) h2]
      show _ = sectionsFrom i (h :: h2 :: t2)
      simp [sectionsFrom, List.append_assoc]

lemma hitHeader_head (i : Nat) (h : RawHit) :
    (hitHeader i h).head? = some '#' := rfl

lemma retrieveContext_ne_sentinel (x : RawHit) (t : List RawHit) :
    retrieveContext (x :: t) ≠ sentinel := by
  unfold retrieveContext
  rw [if_neg (by simp)]
  intro heq
  have h1 : (List.intercalate [ '\n'] (contextParts (x :: t))).head? =
      some '#' := by
    unfold contextParts
    simp only [List.enumFrom, List.flatMap_cons, List.cons_append]
    rw [intercalate_cons_of_ne_nil _ _ _ (by simp)]
    rw [List.append_assoc, List.head?_append]
    rw [hitHeader_head]
    rfl
  rw [heq] at h1
  exact absurd h1 (by decide)

/-- C8 (amended): `retrieve` returns exactly the sentinel
`No relevant documents found in knowledge base.` iff the store's search
returned zero hits; otherwise it returns the hits in the store's order,
each formatted as a numbered section header
`### Document i: <title> (relevance: <score to 2 decimals>)` (with the
markdown `### ` marker) followed by the hit text, with blank lines between
sections. -/
theorem retrieve_format (top_k : Nat) (sa : Bool) (sdk : SdkFind)
    (cli : CliSearch) (hits : List RawHit)
    (h : memvid_search top_k sa sdk cli = some hits) :
    (rag_retrieve top_k sa sdk cli = some sentinel ↔ hits = []) ∧
      (hits ≠ [] →
        rag_retrieve top_k sa sdk cli = some (sectionsFrom 1 hits)) := by
  have hr : rag_retrieve top_k sa sdk cli = some (retrieveContext hits) := by
    unfold rag_retrieve
    rw [h]
    rfl
  constructor
  · constructor
    · intro hs
      rw [hr] at hs
      injection hs with hs
      by_contra hne
      obtain ⟨x, t, rfl⟩ : ∃ x t, hits = x :: t := by
        cases hits with
        | nil => exact absurd rfl hne
        | cons a b => exact ⟨a, b, rfl⟩
      exact retrieveContext_ne_sentinel x t hs
    · intro he
      subst he
      rw [hr]
      rfl
  · intro hne
    rw [hr]
    obtain ⟨x, t, rfl⟩ : ∃ x t, hits = x :: t := by
      cases hits with
      | nil => exact absurd rfl hne
      | cons a b => exact ⟨a, b, rfl⟩
    unfold retrieveContext
    rw [if_neg (by simp)]
    unfold contextParts
    rw [sections_eq_intercalate t 1 x]

theorem retrieve_format_witness :
    rag_retrieve 5 false SdkFind.raises cliOneHit =
      some (sectionsFrom 1 [hitHigh]) :=
  (retrieve_format 5 false SdkFind.raises cliOneHit [hitHigh] rfl).2
    (by decide)

/-! ## Claim C9: temporary-file lifecycle of the CLI document paths. -/

/-- C9 (confirmed): on every exit path of a CLI-variant add/ingest call —
exit code 0, non-zero exit code, or raised exception — the temporary file
is deleted: each per-call trace contains the unlink event and deletes
exactly as many temp files as it creates, and so does a whole ingest run. -/
theorem temp_file_deleted :
    (∀ run, (add_document_cli run).count Ev.unlinkTemp =
        (add_document_cli run).count Ev.createTemp ∧
      Ev.unlinkTemp ∈ add_document_cli run) ∧
      (∀ run, (ingest_cli_doc run).count Ev.unlinkTemp =
        (ingest_cli_doc run).count Ev.createTemp ∧
      Ev.unlinkTemp ∈ ingest_cli_doc run) ∧
      (∀ runs, (ingest_cli_trace runs).count Ev.unlinkTemp =
        (ingest_cli_trace runs).count Ev.createTemp) := by
  refine ⟨?_, ?_, ?_⟩
  · intro run
    cases run with
    | exits code =>
        constructor
        · simp [add_document_cli, List.count_cons]
        · simp [add_document_cli]
    | raisesException =>
        constructor
        · simp [add_document_cli, List.count_cons]
        · simp [add_document_cli]
  · intro run
    cases run with
    | exits code =>
        constructor
        · simp [ingest_cli_doc, List.count_cons]
        · simp [ingest_cli_doc]
    | raisesException =>
        constructor
        · simp [ingest_cli_doc, List.count_cons]
        · simp [ingest_cli_doc]
  · intro runs
    induction runs with
    | nil => rfl
    | cons r t ih =>
        simp only [ingest_cli_trace, List.flatMap_cons, List.count_append]
        have hr : (ingest_cli_doc r).count Ev.unlinkTemp =
            (ingest_cli_doc r).count Ev.createTemp := by
          cases r with
          | exits code => simp [ingest_cli_doc, List.count_cons]
          | raisesException => simp [ingest_cli_doc, List.count_cons]
        simp only [ingest_cli_trace] at ih
        omega
